import Mathlib

/-!
# ext_monitor: the reentrant lock core (`Thread::MonitorCore`)

A shallow embedding of `ext/ext_monitor/ext_monitor.c`.

* `struct monitor_core` becomes the record `monitor_core` with the three C
  fields `count`, `owner`, `mutex`.
* Every `mcore_*` C function becomes a Lean function of the calling thread
  (`rb_thread_current()`) and of the record, returning a `Result`: the value
  returned together with the record after the call, or the exception raised
  together with the record at the point of the raise, or `blocked` when the
  call is suspended inside `rb_mutex_lock`.
* `long` arithmetic is two's complement on 64 bits: `count++` and `count--`
  are `wrapLong (count + 1)` and `wrapLong (count - 1)`.
-/

namespace ExtMonitor

/-! ## Host values -/

/-- Identity of a host thread (the `VALUE` that `rb_thread_current()` returns). -/
abbrev Thread := Nat

/-- Largest `long` (64 bits, the LP64 targets the extension is built for). -/
def LONG_MAX : Int := 9223372036854775807

/-- Smallest `long`. -/
def LONG_MIN : Int := -9223372036854775808

/-- Reduction of a mathematical integer to the `long` it is stored as
(two's complement, modulo `2 ^ 64`). -/
def wrapLong (x : Int) : Int :=
  (x + 9223372036854775808) % 18446744073709551616 - 9223372036854775808

/-- The integer is representable as a `long`. -/
def isLong (x : Int) : Prop := LONG_MIN ≤ x ∧ x ≤ LONG_MAX

instance (x : Int) : Decidable (isLong x) := by
  unfold isLong; exact inferInstance

/-- Exceptions the core can raise. -/
inductive Exception where
  /-- `rb_eThreadError`, "current thread not owner". -/
  | notOwner
  /-- `rb_eThreadError` raised by `rb_mutex_unlock`: the calling thread does
  not hold the mutex (it is unlocked, or locked by another thread). -/
  | mutexNotHeld
  /-- `rb_eArgError`, "wrong number of arguments (given argc, expected 0 or 3)". -/
  | argError (argc : Nat)
  /-- `rb_eRangeError` raised by `NUM2LONG`: the integer does not fit a `long`. -/
  | rangeError
  deriving DecidableEq, Repr

/-! ## The inner lock -/

/-- Modelled from the spec: the inner lock is the host runtime's binary mutex
(`rb_mutex_*`), which is not part of the extension's source. Its state is the thread that
holds it, or `none` when it is unlocked. -/
structure Mutex where
  holder : Option Thread
  deriving DecidableEq, Repr

/-- Modelled from the spec: `rb_mutex_new`, a fresh unlocked inner lock. -/
def rb_mutex_new : Mutex := { holder := none }

/-- Modelled from the spec: `rb_mutex_locked_p`, is the inner lock held by anyone. -/
def rb_mutex_locked_p (m : Mutex) : Bool := m.holder.isSome

/-- Modelled from the spec: `rb_mutex_trylock`, the non-blocking acquire of the
inner lock. `some m'` is success (the lock was free and is now held by `cur`),
`none` is failure (the lock is held, by whichever thread). -/
def rb_mutex_trylock (cur : Thread) (m : Mutex) : Option Mutex :=
  match m.holder with
  | none => some { holder := some cur }
  | some _ => none

/-- Modelled from the spec: `rb_mutex_lock`, the blocking acquire of the inner
lock. `some m'` is an acquisition; `none` means that the call cannot complete
in this state because the lock is held (the inner lock is not reentrant, so
this includes the case where the caller itself holds it). -/
def rb_mutex_lock (cur : Thread) (m : Mutex) : Option Mutex :=
  match m.holder with
  | none => some { holder := some cur }
  | some _ => none

/-- Modelled from the spec: `rb_mutex_unlock`, release of the inner lock. Only
the thread holding the lock can release it; for any other caller the host
primitive raises and the lock is left as it is. -/
def rb_mutex_unlock (cur : Thread) (m : Mutex) : Except Exception Mutex :=
  if m.holder = some cur then .ok { holder := none } else .error .mutexNotHeld

/-- Modelled from the spec: `NUM2LONG`, conversion of a host integer to `long`;
raises when the integer is out of range. -/
def NUM2LONG (n : Int) : Except Exception Int :=
  if LONG_MIN ≤ n ∧ n ≤ LONG_MAX then .ok n else .error .rangeError

/-- Conversion `LONG2NUM` of a `long` to a host integer (always exact). -/
def LONG2NUM (n : Int) : Int := n

/-! ## The lock record -/

/-- The C `struct monitor_core`: `long count; VALUE owner; VALUE mutex`.
`owner` is `Qnil` (`none`) or a thread. -/
structure monitor_core where
  count : Int
  owner : Option Thread
  mutex : Mutex
  deriving DecidableEq, Repr

/-- Outcome of one call on the core. -/
inductive Result (α : Type) where
  /-- The call returned `val`; `mc` is the record afterwards. -/
  | returned (val : α) (mc : monitor_core)
  /-- The call raised `e`; `mc` is the record at the raise. -/
  | raised (e : Exception) (mc : monitor_core)
  /-- The call is suspended in `rb_mutex_lock`; `mc` is the record, untouched. -/
  | blocked (mc : monitor_core)
  deriving DecidableEq, Repr

/-- The record a call leaves behind, whatever its outcome. -/
def Result.state {α : Type} : Result α → monitor_core
  | .returned _ mc => mc
  | .raised _ mc => mc
  | .blocked mc => mc

/-- The call ran to its `return` statement. -/
def Result.completed {α : Type} : Result α → Bool
  | .returned _ _ => true
  | _ => false

/-- The value returned, when the call returned. -/
def Result.value? {α : Type} : Result α → Option α
  | .returned v _ => some v
  | _ => none

/-- The exception raised, when the call raised. -/
def Result.exception? {α : Type} : Result α → Option Exception
  | .raised e _ => some e
  | _ => none

/-- The three arguments of the reconstructing form `MonitorCore.new(mutex, owner, count)`;
`argv` is only read when `argc` is 3. -/
structure InitArgv where
  mutex : Mutex
  owner : Option Thread
  count : Int
  deriving DecidableEq, Repr

/-- The record `MonitorCore.new` produces: the branch `argc == 0` of `mcore_init`. -/
def fresh : monitor_core := { count := 0, owner := none, mutex := rb_mutex_new }

/-- The C `mcore_init`: zero arguments give a fresh record, three arguments are
stored as they are (`count` through `NUM2LONG`), any other `argc` raises. A raise
leaves the caller without an object, so the outcome is a record or an exception. -/
def mcore_init (argc : Nat) (argv : InitArgv) : Except Exception monitor_core :=
  if argc = 0 then
    .ok { count := 0, owner := none, mutex := rb_mutex_new }
  else if argc = 3 then
    match NUM2LONG argv.count with
    | .ok n => .ok { count := n, owner := argv.owner, mutex := argv.mutex }
    | .error e => .error e
  else
    .error (.argError argc)

/-- The C `mc_owner_p`: `mc->owner == rb_thread_current()`. -/
def mc_owner_p (cur : Thread) (mc : monitor_core) : Bool :=
  mc.owner == some cur

/-- The C `mcore_try_enter`. -/
def mcore_try_enter (cur : Thread) (mc : monitor_core) : Result Bool :=
  if !mc_owner_p cur mc then
    match rb_mutex_trylock cur mc.mutex with
    | none => .returned false mc
    | some m => .returned true { count := wrapLong (0 + 1), owner := some cur, mutex := m }
  else
    .returned true { mc with count := wrapLong (mc.count + 1) }

/-- The C `mcore_enter`. -/
def mcore_enter (cur : Thread) (mc : monitor_core) : Result Unit :=
  if !mc_owner_p cur mc then
    match rb_mutex_lock cur mc.mutex with
    | none => .blocked mc
    | some m => .returned () { count := wrapLong (0 + 1), owner := some cur, mutex := m }
  else
    .returned () { mc with count := wrapLong (mc.count + 1) }

/-- The C `mcore_exit`: decrement, and at zero clear the owner, then unlock the
inner lock. When the unlock raises, `count` and `owner` are already written. -/
def mcore_exit (cur : Thread) (mc : monitor_core) : Result Unit :=
  let mc1 : monitor_core := { mc with count := wrapLong (mc.count - 1) }
  if mc1.count = 0 then
    let mc2 : monitor_core := { mc1 with owner := none }
    match rb_mutex_unlock cur mc2.mutex with
    | .ok m => .returned () { mc2 with mutex := m }
    | .error e => .raised e mc2
  else
    .returned () mc1

/-- The C `mcore_locked_p`. -/
def mcore_locked_p (_cur : Thread) (mc : monitor_core) : Result Bool :=
  .returned (rb_mutex_locked_p mc.mutex) mc

/-- The C `mcore_owned_p`. -/
def mcore_owned_p (cur : Thread) (mc : monitor_core) : Result Bool :=
  .returned (rb_mutex_locked_p mc.mutex && mc_owner_p cur mc) mc

/-- The C `mcore_owner`. -/
def mcore_owner (_cur : Thread) (mc : monitor_core) : Result (Option Thread) :=
  .returned mc.owner mc

/-- The C `mcore_check_owner`. -/
def mcore_check_owner (cur : Thread) (mc : monitor_core) : Result Unit :=
  if !mc_owner_p cur mc then .raised .notOwner mc else .returned () mc

/-- The C `mcore_enter_for_cond`: the owner is written first, then the count
is converted; when `NUM2LONG` raises the owner is already written. -/
def mcore_enter_for_cond (_cur : Thread) (mc : monitor_core)
    (target_thread : Option Thread) (count : Int) : Result Unit :=
  let mc1 : monitor_core := { mc with owner := target_thread }
  match NUM2LONG count with
  | .ok n => .returned () { mc1 with count := n }
  | .error e => .raised e mc1

/-- The C `mcore_exit_for_cond`. -/
def mcore_exit_for_cond (cur : Thread) (mc : monitor_core) : Result Int :=
  let cnt := mc.count
  if !mc_owner_p cur mc then
    .raised .notOwner mc
  else
    .returned (LONG2NUM cnt) { mc with owner := none, count := 0 }

/-- The C `mcore_mutex_for_cond`. -/
def mcore_mutex_for_cond (_cur : Thread) (mc : monitor_core) : Result Mutex :=
  .returned mc.mutex mc

/-! ## Sequences of calls -/

/-- The state-changing methods of `Thread::MonitorCore`. -/
inductive Call where
  | enter
  | try_enter
  | exit
  | exit_for_cond
  | enter_for_cond (target_thread : Option Thread) (count : Int)
  deriving DecidableEq, Repr

/-- The record after thread `cur` has issued `call` on `mc`. A call that is
suspended or raises leaves the record it had reached. -/
def perform (mc : monitor_core) (cur : Thread) : Call → monitor_core
  | .enter => (mcore_enter cur mc).state
  | .try_enter => (mcore_try_enter cur mc).state
  | .exit => (mcore_exit cur mc).state
  | .exit_for_cond => (mcore_exit_for_cond cur mc).state
  | .enter_for_cond t n => (mcore_enter_for_cond cur mc t n).state

/-- The record after an interleaved sequence of calls, each issued by its own thread. -/
def run (mc : monitor_core) : List (Thread × Call) → monitor_core
  | [] => mc
  | (cur, call) :: rest => run (perform mc cur call) rest

/-- Every `exit()` of the sequence is issued by the thread that is the owner
at that point (correctly paired use). -/
def exitsByOwner (mc : monitor_core) : List (Thread × Call) → Bool
  | [] => true
  | (cur, call) :: rest =>
    (call != Call.exit || mc_owner_p cur mc) && exitsByOwner (perform mc cur call) rest

/-- The sequence consists of `enter()`, `try_enter()` and `exit()` calls only. -/
def onlyEnterExit (calls : List (Thread × Call)) : Bool :=
  calls.all fun c => c.2 == Call.enter || c.2 == Call.try_enter || c.2 == Call.exit

/-- The sequence has no `enter_for_cond` call. -/
def noRestore (calls : List (Thread × Call)) : Bool :=
  calls.all fun c => c.2 == Call.enter || c.2 == Call.try_enter || c.2 == Call.exit
    || c.2 == Call.exit_for_cond

/-- The sequence consists of `try_enter()` calls only. -/
def onlyTryEnter (calls : List (Thread × Call)) : Bool :=
  calls.all fun c => c.2 == Call.try_enter

/-- The sequence made of `n` consecutive `enter()` calls by thread `t`. -/
def enters (t : Thread) (n : Nat) : List (Thread × Call) :=
  List.replicate n (t, Call.enter)

/-- The sequence made of `n` consecutive `exit()` calls by thread `t`. -/
def exits (t : Thread) (n : Nat) : List (Thread × Call) :=
  List.replicate n (t, Call.exit)

/-- No `enter()` or `try_enter()` of the sequence is issued by the owner while
`count` is `LONG_MAX`: the counter is never incremented out of the range of `long`. -/
def withinLong (mc : monitor_core) : List (Thread × Call) → Bool
  | [] => true
  | (cur, call) :: rest =>
    (!((call == Call.enter || call == Call.try_enter) && mc_owner_p cur mc)
        || decide (mc.count < LONG_MAX))
      && withinLong (perform mc cur call) rest

/-! ## The invariants of the data model, in the words of the specification -/

/-- Invariant I1: `owner != none` exactly when the inner lock is locked. -/
def I1 (mc : monitor_core) : Prop :=
  mc.owner ≠ none ↔ rb_mutex_locked_p mc.mutex = true

/-- Invariant I2: `depth >= 1` whenever `owner != none`, `depth == 0` whenever
`owner == none`. -/
def I2 (mc : monitor_core) : Prop :=
  (mc.owner ≠ none → 1 ≤ mc.count) ∧ (mc.owner = none → mc.count = 0)

/-- The thread holding the inner lock is exactly the owner, and depth is 0 when
there is no owner. -/
def Paired (mc : monitor_core) : Prop :=
  mc.mutex.holder = mc.owner ∧ (mc.owner = none → mc.count = 0)

/-- Either there is no owner and depth is 0, or the owner holds the inner lock at
a depth between 1 and `LONG_MAX`. -/
def DepthOk (mc : monitor_core) : Prop :=
  (mc.owner = none ∧ mc.count = 0) ∨
  (∃ t, mc.owner = some t ∧ mc.mutex.holder = some t ∧ 1 ≤ mc.count ∧ mc.count ≤ LONG_MAX)

/-! ## The two-state machine of the specification -/

/-- The conceptual states of the specification: `Unheld` and `Held(owner, depth)`
with `depth ≥ 1`. -/
inductive AbsState where
  | Unheld
  | Held (owner : Thread) (depth : Nat)
  deriving DecidableEq, Repr

/-- The mapping of concrete records to conceptual states: owner none, depth 0 and
a free inner lock is `Unheld`; owner `t`, depth `n ≥ 1` and the inner lock held by
`t` is `Held(t, n)`; other records stand for no conceptual state. -/
def abstraction (mc : monitor_core) : Option AbsState :=
  match mc.owner with
  | none =>
    if mc.count = 0 ∧ mc.mutex.holder = none then some .Unheld else none
  | some t =>
    if 1 ≤ mc.count ∧ mc.mutex.holder = some t then some (.Held t mc.count.toNat) else none

/-- The bookkeeping (owner, depth) a conceptual state stands for. -/
def AbsState.bookkeeping : AbsState → Option Thread × Int
  | .Unheld => (none, 0)
  | .Held t n => (some t, (n : Int))

/-- The bookkeeping (owner, depth) of a concrete record. -/
def bookkeeping (mc : monitor_core) : Option Thread × Int :=
  (mc.owner, mc.count)

/-- The transitions the specification lists, for a call issued by thread `cur`:
`Unheld → Held(t,1)` and `Held(t,n) → Held(t,n+1)` via enter/try_enter by `t`;
`Held(t,n) → Held(t,n-1)` via exit when `n > 1`; `Held(t,1) → Unheld` via exit;
`Held(t,n) → Unheld` via exit_for_cond; any state `→ Held(t,n)` via
enter_for_cond(t, n) with `n ≥ 1`. Exits are those of the owner. `none` where the
specification lists no transition. -/
def spec_step (cur : Thread) : Call → AbsState → Option AbsState
  | .enter, .Unheld => some (.Held cur 1)
  | .enter, .Held t n => if t = cur then some (.Held t (n + 1)) else none
  | .try_enter, .Unheld => some (.Held cur 1)
  | .try_enter, .Held t n => if t = cur then some (.Held t (n + 1)) else none
  | .exit, .Unheld => none
  | .exit, .Held t n =>
    if t = cur then
      if 1 < n then some (.Held t (n - 1)) else if n = 1 then some .Unheld else none
    else none
  | .exit_for_cond, .Unheld => none
  | .exit_for_cond, .Held t _ => if t = cur then some .Unheld else none
  | .enter_for_cond (some t) n, _ => if 1 ≤ n then some (.Held t n.toNat) else none
  | .enter_for_cond none _, _ => none

/-- The depth of the conceptual state can be stored in a `long`. -/
def AbsState.fitsLong : AbsState → Prop
  | .Unheld => True
  | .Held _ n => (n : Int) ≤ LONG_MAX

/-! ## Arithmetic of `long` -/

theorem wrapLong_of_isLong (x : Int) (h : isLong x) : wrapLong x = x := by
  unfold isLong LONG_MIN LONG_MAX at h
  unfold wrapLong
  omega

theorem wrapLong_one : wrapLong 1 = 1 := by decide

theorem wrapLong_zero : wrapLong 0 = 0 := by decide

theorem wrapLong_add_one (x : Int) (k : Int) :
    wrapLong (wrapLong (x + k) + 1) = wrapLong (x + (k + 1)) := by
  unfold wrapLong
  omega

theorem wrapLong_pred_ne (x : Int) : wrapLong (x - 1) ≠ x := by
  unfold wrapLong
  omega

/-! ## One call -/

theorem mc_owner_p_iff (cur : Thread) (mc : monitor_core) :
    mc_owner_p cur mc = true ↔ mc.owner = some cur := by
  simp [mc_owner_p]

theorem mcore_enter_of_owner (cur : Thread) (mc : monitor_core) (h : mc.owner = some cur) :
    mcore_enter cur mc = .returned () { mc with count := wrapLong (mc.count + 1) } := by
  simp [mcore_enter, mc_owner_p, h]

theorem mcore_try_enter_of_owner (cur : Thread) (mc : monitor_core) (h : mc.owner = some cur) :
    mcore_try_enter cur mc = .returned true { mc with count := wrapLong (mc.count + 1) } := by
  simp [mcore_try_enter, mc_owner_p, h]

theorem mcore_enter_of_free (cur : Thread) (mc : monitor_core) (h : mc.owner ≠ some cur)
    (hm : mc.mutex.holder = none) :
    mcore_enter cur mc
      = .returned () { count := 1, owner := some cur, mutex := { holder := some cur } } := by
  simp [mcore_enter, mc_owner_p, h, rb_mutex_lock, hm, wrapLong_one]

theorem mcore_try_enter_of_free (cur : Thread) (mc : monitor_core) (h : mc.owner ≠ some cur)
    (hm : mc.mutex.holder = none) :
    mcore_try_enter cur mc
      = .returned true { count := 1, owner := some cur, mutex := { holder := some cur } } := by
  simp [mcore_try_enter, mc_owner_p, h, rb_mutex_trylock, hm, wrapLong_one]

theorem mcore_enter_of_held (cur : Thread) (mc : monitor_core) (h : mc.owner ≠ some cur)
    (hm : mc.mutex.holder ≠ none) : mcore_enter cur mc = .blocked mc := by
  obtain ⟨u, hu⟩ := Option.ne_none_iff_exists'.mp hm
  simp [mcore_enter, mc_owner_p, h, rb_mutex_lock, hu]

theorem mcore_try_enter_of_held (cur : Thread) (mc : monitor_core) (h : mc.owner ≠ some cur)
    (hm : mc.mutex.holder ≠ none) : mcore_try_enter cur mc = .returned false mc := by
  obtain ⟨u, hu⟩ := Option.ne_none_iff_exists'.mp hm
  simp [mcore_try_enter, mc_owner_p, h, rb_mutex_trylock, hu]

theorem mcore_exit_of_ne_one (cur : Thread) (mc : monitor_core)
    (h : wrapLong (mc.count - 1) ≠ 0) :
    mcore_exit cur mc = .returned () { mc with count := wrapLong (mc.count - 1) } := by
  simp [mcore_exit, h]

theorem mcore_exit_of_holder (cur : Thread) (mc : monitor_core)
    (h : wrapLong (mc.count - 1) = 0) (hm : mc.mutex.holder = some cur) :
    mcore_exit cur mc = .returned () { count := 0, owner := none, mutex := { holder := none } } := by
  simp [mcore_exit, h, rb_mutex_unlock, hm]

theorem mcore_exit_of_not_holder (cur : Thread) (mc : monitor_core)
    (h : wrapLong (mc.count - 1) = 0) (hm : mc.mutex.holder ≠ some cur) :
    mcore_exit cur mc = .raised .mutexNotHeld { count := 0, owner := none, mutex := mc.mutex } := by
  simp [mcore_exit, h, rb_mutex_unlock, hm]

/-! ## Sequences of calls -/

theorem run_append (mc : monitor_core) (xs ys : List (Thread × Call)) :
    run mc (xs ++ ys) = run (run mc xs) ys := by
  induction xs generalizing mc with
  | nil => rfl
  | cons x xs ih =>
    obtain ⟨cur, call⟩ := x
    simp [run, ih]

theorem enters_succ (t : Thread) (n : Nat) : enters t (n + 1) = (t, Call.enter) :: enters t n := by
  simp [enters, List.replicate_succ]

theorem enters_succ_last (t : Thread) (n : Nat) :
    enters t (n + 1) = enters t n ++ [(t, Call.enter)] := by
  simp [enters, List.replicate_succ']

theorem exits_succ_last (t : Thread) (n : Nat) :
    exits t (n + 1) = exits t n ++ [(t, Call.exit)] := by
  simp [exits, List.replicate_succ']

/-- Closed form of `k` further `enter()` calls by the owner: only `count` moves. -/
theorem run_enters_of_owner (t : Thread) (k : Nat) (mc : monitor_core) (h : mc.owner = some t) :
    run mc (enters t k) = { mc with count := wrapLong (mc.count + k) } ∨ k = 0 := by
  induction k with
  | zero => exact Or.inr rfl
  | succ k ih =>
    left
    rw [enters_succ_last, run_append]
    rcases ih with ih | rfl
    · rw [ih]
      simp only [run, perform]
      rw [mcore_enter_of_owner _ _ (by simpa using h)]
      simp only [Result.state, Nat.cast_add, Nat.cast_one]
      rw [wrapLong_add_one]
    · simp only [enters, List.replicate, run, perform]
      rw [mcore_enter_of_owner _ _ h]
      simp [Result.state]

/-- Closed form of `n` consecutive `enter()` calls by `t` on a fresh lock. -/
theorem run_fresh_enters (t : Thread) (n : Nat) :
    run fresh (enters t (n + 1))
      = { count := wrapLong (n + 1), owner := some t, mutex := { holder := some t } } := by
  rw [enters_succ]
  simp only [run, perform]
  rw [mcore_enter_of_free t fresh (by simp [fresh]) (by simp [fresh, rb_mutex_new])]
  simp only [Result.state]
  rcases run_enters_of_owner t n
      { count := 1, owner := some t, mutex := { holder := some t } } rfl with h | rfl
  · rw [h]
    simp only [monitor_core.mk.injEq, and_true]
    congr 1
    omega
  · simp [enters, run, wrapLong_one]

/-- Closed form of `k` `exit()` calls by the owner and holder `t` that stay above depth 0. -/
theorem run_exits_lt (t : Thread) (k : Nat) (mc : monitor_core) (hl : isLong mc.count)
    (hk : (k : Int) < mc.count) :
    run mc (exits t k) = { mc with count := mc.count - k } := by
  induction k with
  | zero => simp [exits, run]
  | succ k ih =>
    have hk' : (k : Int) < mc.count := by push_cast at hk; omega
    rw [exits_succ_last, run_append, ih hk']
    simp only [run, perform]
    have hw : wrapLong (mc.count - (k : Int) - 1) = mc.count - ((k + 1 : Nat) : Int) := by
      rw [wrapLong_of_isLong]
      · push_cast; ring
      · unfold isLong LONG_MIN LONG_MAX at *
        push_cast at hk
        omega
    rw [mcore_exit_of_ne_one]
    · simp only [Result.state]
      rw [hw]
    · simp only
      rw [hw]
      omega

/-- Closed form of as many `exit()` calls by the owner and holder `t` as the
depth: the lock ends as a fresh one. -/
theorem run_exits_all (t : Thread) (mc : monitor_core) (hl : isLong mc.count)
    (h1 : 1 ≤ mc.count) (hm : mc.mutex.holder = some t) :
    run mc (exits t mc.count.toNat) = fresh := by
  obtain ⟨k, hk⟩ : ∃ k : Nat, mc.count.toNat = k + 1 := ⟨mc.count.toNat - 1, by omega⟩
  have hc : mc.count = (k : Int) + 1 := by omega
  rw [hk, exits_succ_last, run_append, run_exits_lt t k mc hl (by omega)]
  simp only [run, perform]
  rw [mcore_exit_of_holder t { mc with count := mc.count - (k : Int) } _ hm]
  · simp [Result.state, fresh, rb_mutex_new]
  · simp only
    rw [hc]
    simp [wrapLong_zero]

theorem wrapLong_sub_one (x : Int) (k : Int) :
    wrapLong (wrapLong (x - k) - 1) = wrapLong (x - (k + 1)) := by
  unfold wrapLong
  omega

/-- Closed form of `k` `exit()` calls none of which brings `count` to 0, in the
arithmetic of `long`: only `count` moves. -/
theorem run_exits_wrap (t : Thread) (k : Nat) (c : Int) (o : Option Thread) (m : Mutex)
    (h : ∀ i : Nat, 1 ≤ i → i ≤ k → wrapLong (c - i) ≠ 0) :
    run { count := wrapLong c, owner := o, mutex := m } (exits t k)
      = { count := wrapLong (c - k), owner := o, mutex := m } := by
  induction k with
  | zero => simp [exits, run]
  | succ k ih =>
    rw [exits_succ_last, run_append, ih (fun i h1 hk => h i h1 (by omega))]
    simp only [run, perform]
    have hw : wrapLong (wrapLong (c - (k : Int)) - 1) = wrapLong (c - ((k + 1 : Nat) : Int)) := by
      rw [wrapLong_sub_one]
      push_cast
      rfl
    rw [mcore_exit_of_ne_one]
    · simp only [Result.state]
      rw [hw]
    · simp only
      rw [hw]
      exact h (k + 1) (by omega) le_rfl

/-! ## Reentrancy -/

/-- C1 (amended): for every thread `t` and every `n` with `1 ≤ n ≤ 2 ^ 64` (the
depth is a 64-bit `long`; for `n ≤ LONG_MAX` it never overflows), starting from a
fresh lock, each of `n` consecutive `enter()` calls by `t` completes; the first one
acquires the inner lock, and each later one completes whatever the state of the
inner lock and leaves it as it is; `owned?()` by `t` is true after each `enter()` and
after each of the first `n - 1` following `exit()` calls; after the `n`-th `exit()`
the lock is the fresh one again and `locked?()` is false. -/
theorem reentrancy_within_long (t : Thread) (n : Nat) (h1 : 1 ≤ n)
    (hn : n ≤ 18446744073709551616) :
    (∀ i, i < n → (mcore_enter t (run fresh (enters t i))).completed = true) ∧
    (fresh.mutex.holder = none ∧ (mcore_enter t fresh).state.mutex.holder = some t) ∧
    (∀ i, 1 ≤ i → i < n → ∀ m : Mutex,
      (mcore_enter t { run fresh (enters t i) with mutex := m }).completed = true ∧
      (mcore_enter t { run fresh (enters t i) with mutex := m }).state.mutex = m) ∧
    (∀ k, 1 ≤ k → k ≤ n →
      mcore_owned_p t (run fresh (enters t k)) = .returned true (run fresh (enters t k))) ∧
    (∀ j, j < n →
      mcore_owned_p t (run fresh (enters t n ++ exits t j))
        = .returned true (run fresh (enters t n ++ exits t j))) ∧
    run fresh (enters t n ++ exits t n) = fresh ∧
    mcore_locked_p t (run fresh (enters t n ++ exits t n)) = .returned false fresh := by
  have hstate : ∀ k : Nat, 1 ≤ k → run fresh (enters t k)
      = { count := wrapLong k, owner := some t, mutex := { holder := some t } } := by
    intro k hk1
    obtain ⟨k, rfl⟩ : ∃ j, k = j + 1 := ⟨k - 1, by omega⟩
    rw [run_fresh_enters]
    push_cast
    rfl
  have hexits : ∀ j : Nat, j < n → run fresh (enters t n ++ exits t j)
      = { count := wrapLong ((n : Int) - j), owner := some t, mutex := { holder := some t } } := by
    intro j hj
    rw [run_append, hstate n h1, run_exits_wrap]
    intro i hi1 hij
    unfold wrapLong
    omega
  have hall : run fresh (enters t n ++ exits t n) = fresh := by
    obtain ⟨j, rfl⟩ : ∃ j, n = j + 1 := ⟨n - 1, by omega⟩
    rw [exits_succ_last, ← List.append_assoc, run_append, hexits j (by omega)]
    simp only [run, perform]
    rw [mcore_exit_of_holder t _ _ rfl]
    · rfl
    · simp only
      unfold wrapLong
      push_cast
      omega
  refine ⟨?_, ⟨rfl, ?_⟩, ?_, ?_, ?_, hall, ?_⟩
  · intro i hi
    rcases Nat.eq_zero_or_pos i with rfl | hpos
    · simp [enters, run, mcore_enter_of_free t fresh (by simp [fresh]) rfl, Result.completed]
    · rw [hstate i hpos, mcore_enter_of_owner _ _ rfl]
      rfl
  · rw [mcore_enter_of_free t fresh (by simp [fresh]) rfl]
    rfl
  · intro i hi1 hin m
    rw [hstate i hi1, mcore_enter_of_owner _ _ rfl]
    exact ⟨rfl, rfl⟩
  · intro k hk1 hkn
    rw [hstate k hk1]
    simp [mcore_owned_p, rb_mutex_locked_p, mc_owner_p]
  · intro j hj
    rw [hexits j hj]
    simp [mcore_owned_p, rb_mutex_locked_p, mc_owner_p]
  · rw [hall]
    rfl

/-- Witness for C1 (amended): thread 7 entering three times. -/
theorem reentrancy_within_long_witness :
    run fresh (enters 7 3 ++ exits 7 3) = fresh :=
  (reentrancy_within_long 7 3 (by decide) (by decide)).2.2.2.2.2.1

/-- C1 as stated fails: `count` is a 64-bit `long`, so after `2 ^ 64 + 1` consecutive
`enter()` calls by thread 0 it has wrapped around to 1 and the first `exit()` already
releases the lock; `owned?()` is not true after each of the first `n - 1` exits. -/
theorem reentrancy_fails_after_wrap :
    ¬ (∀ j, j < 18446744073709551617 →
        mcore_owned_p 0 (run fresh (enters 0 18446744073709551617 ++ exits 0 j))
          = .returned true (run fresh (enters 0 18446744073709551617 ++ exits 0 j))) := by
  intro h
  have h1 := h 1 (by decide)
  have hs : run fresh (enters 0 18446744073709551617)
      = { count := 1, owner := some 0, mutex := { holder := some 0 } } := by
    have := run_fresh_enters 0 18446744073709551616
    rw [this]
    simp only [monitor_core.mk.injEq, and_true]
    decide
  rw [run_append, hs] at h1
  revert h1
  decide

/-! ## Mutual exclusion -/

/-- C2: in every state in which `owned?()` is true for thread `A`, for every thread
`B` different from `A`, `try_enter()` by `B` returns false and leaves the record
(owner, depth, inner lock) as it was, and `enter()` by `B` does not complete: it is
suspended on the inner lock with the record untouched. -/
theorem mutual_exclusion (mc : monitor_core) (A B : Thread)
    (hA : mcore_owned_p A mc = .returned true mc) (hAB : B ≠ A) :
    mcore_try_enter B mc = .returned false mc ∧
    mcore_enter B mc = .blocked mc ∧
    (mcore_enter B mc).completed = false := by
  simp only [mcore_owned_p, Result.returned.injEq, and_true, Bool.and_eq_true,
    rb_mutex_locked_p, Option.isSome_iff_ne_none, mc_owner_p_iff] at hA
  obtain ⟨hlocked, hown⟩ := hA
  have hB : mc.owner ≠ some B := by
    rw [hown]
    intro h
    exact hAB (Option.some.inj h).symm
  rw [mcore_try_enter_of_held B mc hB hlocked, mcore_enter_of_held B mc hB hlocked]
  exact ⟨rfl, rfl, rfl⟩

/-- Witness for C2 (scenario 3): T = 1 holds at depth 2, U = 2 tries to enter. -/
theorem mutual_exclusion_witness :
    mcore_try_enter 2 { count := 2, owner := some 1, mutex := { holder := some 1 } }
      = .returned false { count := 2, owner := some 1, mutex := { holder := some 1 } } :=
  (mutual_exclusion { count := 2, owner := some 1, mutex := { holder := some 1 } } 1 2
    (by decide) (by decide)).1

/-! ## The save/restore pair of the condition variable -/

/-- C3: for every thread `t` and every `n ≥ 1` (a `long`), in a state with owner `t`,
depth `n` and the inner lock held by `t`: `exit_for_cond()` by `t` returns `n`, sets
owner to none and depth to 0 and leaves the inner lock untouched, still locked; a
following `enter_for_cond(t, n)` gives back exactly the state before the save, in
which `owned?()` is true for `t`; from there the lock is still owned by `t` after
any `k < n` calls of `exit()` by `t`, and after the `n`-th it is unheld with the
inner lock unlocked. -/
theorem cond_save_restore (t : Thread) (n : Nat) (mc : monitor_core)
    (h1 : 1 ≤ n) (hl : (n : Int) ≤ LONG_MAX) (hc : mc.count = n)
    (ho : mc.owner = some t) (hm : mc.mutex.holder = some t) :
    mcore_exit_for_cond t mc
      = .returned n { count := 0, owner := none, mutex := mc.mutex } ∧
    rb_mutex_locked_p (mcore_exit_for_cond t mc).state.mutex = true ∧
    (∀ c, mcore_enter_for_cond c (mcore_exit_for_cond t mc).state (some t) n
      = .returned () mc) ∧
    mcore_owned_p t mc = .returned true mc ∧
    (∀ k, k < n →
      mcore_owned_p t (run mc (exits t k)) = .returned true (run mc (exits t k))) ∧
    run mc (exits t n) = { count := 0, owner := none, mutex := { holder := none } } := by
  have hlong : isLong mc.count := by
    unfold isLong LONG_MIN LONG_MAX at *
    omega
  have hsave : mcore_exit_for_cond t mc
      = .returned n { count := 0, owner := none, mutex := mc.mutex } := by
    simp [mcore_exit_for_cond, mc_owner_p, ho, LONG2NUM, hc]
  have hown : mcore_owned_p t mc = .returned true mc := by
    simp [mcore_owned_p, rb_mutex_locked_p, mc_owner_p, ho, hm]
  refine ⟨hsave, ?_, ?_, hown, ?_, ?_⟩
  · rw [hsave]
    simp [Result.state, rb_mutex_locked_p, hm]
  · intro c
    rw [hsave]
    have hnum : NUM2LONG (n : Int) = .ok (n : Int) := by
      unfold NUM2LONG
      rw [if_pos]
      unfold LONG_MIN LONG_MAX at *
      omega
    obtain ⟨cnt, own, mtx⟩ := mc
    simp only at hc ho
    simp [mcore_enter_for_cond, Result.state, hnum, hc, ho]
  · intro k hk
    rw [run_exits_lt t k mc hlong (by omega)]
    simp [mcore_owned_p, rb_mutex_locked_p, mc_owner_p, ho, hm]
  · have := run_exits_all t mc hlong (by omega) hm
    rw [hc] at this
    simpa [fresh, rb_mutex_new] using this

/-- Witness for C3 (scenario 4): T = 1 holds at depth 2. -/
theorem cond_save_restore_witness :
    mcore_exit_for_cond 1 { count := 2, owner := some 1, mutex := { holder := some 1 } }
      = .returned 2 { count := 0, owner := none, mutex := { holder := some 1 } } :=
  (cond_save_restore 1 2 { count := 2, owner := some 1, mutex := { holder := some 1 } }
    (by decide) (by decide) rfl rfl rfl).1

/-! ## Ownership enforcement -/

/-- C4: for every state and every calling thread `c`, `check_owner()` and
`exit_for_cond()` raise the ownership error if and only if `c` is not the current
owner, in particular whenever the owner is none; when they raise, the record (owner,
depth, inner lock) is unchanged; when `check_owner()` does not raise it returns with
the record unchanged. -/
theorem ownership_enforcement (c : Thread) (mc : monitor_core) :
    ((mcore_check_owner c mc).exception? = some .notOwner ↔ mc.owner ≠ some c) ∧
    ((mcore_exit_for_cond c mc).exception? = some .notOwner ↔ mc.owner ≠ some c) ∧
    (mc.owner = none → mcore_check_owner c mc = .raised .notOwner mc ∧
      mcore_exit_for_cond c mc = .raised .notOwner mc) ∧
    (∀ e, (mcore_check_owner c mc).exception? = some e →
      mcore_check_owner c mc = .raised .notOwner mc) ∧
    (∀ e, (mcore_exit_for_cond c mc).exception? = some e →
      mcore_exit_for_cond c mc = .raised .notOwner mc) ∧
    ((mcore_check_owner c mc).exception? = none → mcore_check_owner c mc = .returned () mc) := by
  by_cases h : mc.owner = some c
  · simp [mcore_check_owner, mcore_exit_for_cond, mc_owner_p, h, Result.exception?]
  · have hb : (mc.owner == some c) = false := by simpa using h
    refine ⟨?_, ?_, ?_, ?_, ?_, ?_⟩ <;>
      simp [mcore_check_owner, mcore_exit_for_cond, mc_owner_p, h, hb, Result.exception?]

/-! ## `exit()` and `enter()`, one call -/

/-- C5 (amended): for every state with depth `d`, a `long` above `LONG_MIN`, and every caller,
owner or not, `exit()` sets depth to `d - 1` and raises no ownership error. If
`d - 1 ≠ 0` it returns leaving owner and the inner lock unchanged. If `d - 1 = 0` it
sets owner to none and unlocks the inner lock when the caller holds it; when the
caller does not hold the inner lock, the unlock raises with depth and owner already
written and the inner lock left as it was. -/
theorem exit_one_level (c : Thread) (mc : monitor_core)
    (hmin : LONG_MIN < mc.count) (hmax : mc.count ≤ LONG_MAX) :
    (mcore_exit c mc).state.count = mc.count - 1 ∧
    (mcore_exit c mc).exception? ≠ some .notOwner ∧
    (mc.count - 1 ≠ 0 →
      mcore_exit c mc = .returned () { mc with count := mc.count - 1 }) ∧
    (mc.count - 1 = 0 → mc.mutex.holder = some c →
      mcore_exit c mc
        = .returned () { count := 0, owner := none, mutex := { holder := none } }) ∧
    (mc.count - 1 = 0 → mc.mutex.holder ≠ some c →
      mcore_exit c mc
        = .raised .mutexNotHeld { count := 0, owner := none, mutex := mc.mutex }) := by
  have hw : wrapLong (mc.count - 1) = mc.count - 1 := by
    apply wrapLong_of_isLong
    unfold isLong LONG_MIN LONG_MAX at *
    omega
  by_cases hz : mc.count - 1 = 0
  · by_cases hh : mc.mutex.holder = some c
    · rw [mcore_exit_of_holder c mc (by rw [hw, hz]) hh]
      simp [Result.state, Result.exception?, hz, hh]
    · rw [mcore_exit_of_not_holder c mc (by rw [hw, hz]) hh]
      simp [Result.state, Result.exception?, hz, hh]
  · rw [mcore_exit_of_ne_one c mc (by rw [hw]; exact hz), hw]
    simp [Result.state, Result.exception?, hz]

/-- Witness for C5 (amended): thread 2, not the owner, exits at depth 3. -/
theorem exit_one_level_witness :
    (mcore_exit 2 { count := 3, owner := some 1, mutex := { holder := some 1 } }).state.count
      = 3 - 1 :=
  (exit_one_level 2 { count := 3, owner := some 1, mutex := { holder := some 1 } }
    (by decide) (by decide)).1

/-- C5 as stated fails: at depth 1 with owner and inner-lock holder 1, `exit()` by
thread 2 brings depth to 0 and clears the owner, but the inner lock is not unlocked:
its unlock raises and it stays held by thread 1. -/
theorem exit_by_non_holder_keeps_inner_lock :
    mcore_exit 2 { count := 1, owner := some 1, mutex := { holder := some 1 } }
      = .raised .mutexNotHeld { count := 0, owner := none, mutex := { holder := some 1 } } := by
  decide

/-- C6 (amended): for every state (depth a `long`) and calling thread `c`: if `c` equals owner,
`enter()` completes whatever the state of the inner lock, leaves the inner lock and
the owner as they are, and, when depth is below `LONG_MAX`, changes the record only
by incrementing depth by 1; if `c` is not the owner and the inner lock is free,
`enter()` locks the inner lock for `c` and sets owner to `c` and depth to 1. -/
theorem enter_postcondition (c : Thread) (mc : monitor_core) (hmin : LONG_MIN ≤ mc.count) :
    (mc.owner = some c →
      (mcore_enter c mc).completed = true ∧
      (mcore_enter c mc).state.mutex = mc.mutex ∧
      (mcore_enter c mc).state.owner = mc.owner) ∧
    (mc.owner = some c → mc.count < LONG_MAX →
      mcore_enter c mc = .returned () { mc with count := mc.count + 1 }) ∧
    (mc.owner ≠ some c → mc.mutex.holder = none →
      mcore_enter c mc
        = .returned () { count := 1, owner := some c, mutex := { holder := some c } }) := by
  refine ⟨?_, ?_, ?_⟩
  · intro ho
    rw [mcore_enter_of_owner c mc ho]
    exact ⟨rfl, rfl, rfl⟩
  · intro ho hlt
    rw [mcore_enter_of_owner c mc ho, wrapLong_of_isLong]
    unfold isLong LONG_MIN LONG_MAX at *
    omega
  · intro ho hm
    exact mcore_enter_of_free c mc ho hm

/-- Witness for C6 (amended): the owner 1 enters again at depth 4. -/
theorem enter_postcondition_witness :
    mcore_enter 1 { count := 4, owner := some 1, mutex := { holder := some 1 } }
      = .returned () { count := 4 + 1, owner := some 1, mutex := { holder := some 1 } } :=
  (enter_postcondition 1 { count := 4, owner := some 1, mutex := { holder := some 1 } }
    (by decide)).2.1 rfl (by decide)

/-- C6 as stated fails: at depth `LONG_MAX`, `enter()` by the owner does not
increment depth by 1; the `long` overflows and depth becomes `LONG_MIN`. -/
theorem enter_at_long_max_wraps :
    mcore_enter 1 { count := LONG_MAX, owner := some 1, mutex := { holder := some 1 } }
      = .returned () { count := LONG_MIN, owner := some 1, mutex := { holder := some 1 } } ∧
    LONG_MIN ≠ LONG_MAX + 1 := by
  decide

/-! ## Invariants along sequences of calls -/

theorem perform_enter_paired (mc : monitor_core) (cur : Thread) (h : Paired mc) :
    Paired (perform mc cur Call.enter) := by
  obtain ⟨hh, hz⟩ := h
  simp only [perform]
  by_cases ho : mc.owner = some cur
  · rw [mcore_enter_of_owner cur mc ho]
    exact ⟨hh, fun hn => by simp [Result.state, ho] at hn⟩
  · by_cases hm : mc.mutex.holder = none
    · rw [mcore_enter_of_free cur mc ho hm]
      exact ⟨rfl, fun hn => by simp [Result.state] at hn⟩
    · rw [mcore_enter_of_held cur mc ho hm]
      exact ⟨hh, hz⟩

theorem perform_try_enter_paired (mc : monitor_core) (cur : Thread) (h : Paired mc) :
    Paired (perform mc cur Call.try_enter) := by
  obtain ⟨hh, hz⟩ := h
  simp only [perform]
  by_cases ho : mc.owner = some cur
  · rw [mcore_try_enter_of_owner cur mc ho]
    exact ⟨hh, fun hn => by simp [Result.state, ho] at hn⟩
  · by_cases hm : mc.mutex.holder = none
    · rw [mcore_try_enter_of_free cur mc ho hm]
      exact ⟨rfl, fun hn => by simp [Result.state] at hn⟩
    · rw [mcore_try_enter_of_held cur mc ho hm]
      exact ⟨hh, hz⟩

theorem perform_exit_paired (mc : monitor_core) (cur : Thread) (h : Paired mc)
    (ho : mc.owner = some cur) : Paired (perform mc cur Call.exit) := by
  obtain ⟨hh, _⟩ := h
  simp only [perform]
  by_cases hc : wrapLong (mc.count - 1) = 0
  · rw [mcore_exit_of_holder cur mc hc (by rw [hh, ho])]
    exact ⟨rfl, fun _ => rfl⟩
  · rw [mcore_exit_of_ne_one cur mc hc]
    exact ⟨hh, fun hn => by simp [Result.state, ho] at hn⟩

/-- The pairing of owner and inner-lock holder is kept by every sequence of
`enter()`, `try_enter()` and owner-issued `exit()` calls. -/
theorem run_paired (calls : List (Thread × Call)) (mc : monitor_core)
    (h3 : onlyEnterExit calls = true) (hex : exitsByOwner mc calls = true) (h : Paired mc) :
    Paired (run mc calls) := by
  induction calls generalizing mc with
  | nil => exact h
  | cons x rest ih =>
    obtain ⟨cur, call⟩ := x
    simp only [onlyEnterExit, List.all_cons, Bool.and_eq_true] at h3
    simp only [exitsByOwner, Bool.and_eq_true] at hex
    simp only [run]
    apply ih _ (by simpa [onlyEnterExit] using h3.2) hex.2
    cases call with
    | enter => exact perform_enter_paired mc cur h
    | try_enter => exact perform_try_enter_paired mc cur h
    | exit =>
      apply perform_exit_paired mc cur h
      have := hex.1
      simpa [mc_owner_p] using this
    | exit_for_cond => simp at h3
    | enter_for_cond t n => simp at h3

theorem perform_enter_depthOk (mc : monitor_core) (cur : Thread) (h : DepthOk mc)
    (hw : mc.owner = some cur → mc.count < LONG_MAX) :
    DepthOk (perform mc cur Call.enter) := by
  simp only [perform]
  by_cases ho : mc.owner = some cur
  · rw [mcore_enter_of_owner cur mc ho]
    rcases h with ⟨hn, _⟩ | ⟨t, ht, hm, h1, hmax⟩
    · rw [ho] at hn; cases hn
    · have hlt := hw ho
      right
      refine ⟨t, ht, hm, ?_⟩
      simp only [Result.state]
      rw [wrapLong_of_isLong]
      · unfold LONG_MAX at *; omega
      · unfold isLong LONG_MIN LONG_MAX at *; omega
  · by_cases hm : mc.mutex.holder = none
    · rw [mcore_enter_of_free cur mc ho hm]
      right
      exact ⟨cur, rfl, rfl, le_refl (1 : Int), show (1 : Int) ≤ LONG_MAX by decide⟩
    · rw [mcore_enter_of_held cur mc ho hm]
      exact h

theorem perform_try_enter_depthOk (mc : monitor_core) (cur : Thread) (h : DepthOk mc)
    (hw : mc.owner = some cur → mc.count < LONG_MAX) :
    DepthOk (perform mc cur Call.try_enter) := by
  simp only [perform]
  by_cases ho : mc.owner = some cur
  · rw [mcore_try_enter_of_owner cur mc ho]
    rcases h with ⟨hn, _⟩ | ⟨t, ht, hm, h1, hmax⟩
    · rw [ho] at hn; cases hn
    · have hlt := hw ho
      right
      refine ⟨t, ht, hm, ?_⟩
      simp only [Result.state]
      rw [wrapLong_of_isLong]
      · unfold LONG_MAX at *; omega
      · unfold isLong LONG_MIN LONG_MAX at *; omega
  · by_cases hm : mc.mutex.holder = none
    · rw [mcore_try_enter_of_free cur mc ho hm]
      right
      exact ⟨cur, rfl, rfl, le_refl (1 : Int), show (1 : Int) ≤ LONG_MAX by decide⟩
    · rw [mcore_try_enter_of_held cur mc ho hm]
      exact h

theorem perform_exit_depthOk (mc : monitor_core) (cur : Thread) (h : DepthOk mc)
    (ho : mc.owner = some cur) : DepthOk (perform mc cur Call.exit) := by
  simp only [perform]
  rcases h with ⟨hn, _⟩ | ⟨t, ht, hm, h1, hmax⟩
  · rw [ho] at hn; cases hn
  · have htc : t = cur := by rw [ho] at ht; exact (Option.some.inj ht).symm
    subst htc
    have hwr : wrapLong (mc.count - 1) = mc.count - 1 := by
      apply wrapLong_of_isLong
      unfold isLong LONG_MIN LONG_MAX at *
      omega
    by_cases hc : mc.count - 1 = 0
    · rw [mcore_exit_of_holder t mc (by rw [hwr, hc]) hm]
      left
      exact ⟨rfl, rfl⟩
    · rw [mcore_exit_of_ne_one t mc (by rw [hwr]; exact hc)]
      right
      refine ⟨t, ht, hm, ?_⟩
      simp only [Result.state]
      rw [hwr]
      omega

theorem perform_exit_for_cond_depthOk (mc : monitor_core) (cur : Thread) (h : DepthOk mc) :
    DepthOk (perform mc cur Call.exit_for_cond) := by
  simp only [perform, mcore_exit_for_cond]
  by_cases ho : mc_owner_p cur mc = true
  · simp only [ho, Bool.not_true, Bool.false_eq_true, if_false, Result.state]
    left
    exact ⟨rfl, rfl⟩
  · simp only [ho, Bool.not_false, if_true, Result.state]
    exact h

/-- The depth bounds are kept by every sequence of `enter()`, `try_enter()`,
`exit()` and `exit_for_cond()` calls whose exits are issued by the owner and that
never increments the depth at `LONG_MAX`. -/
theorem run_depthOk (calls : List (Thread × Call)) (mc : monitor_core)
    (h4 : noRestore calls = true) (hex : exitsByOwner mc calls = true)
    (hw : withinLong mc calls = true) (h : DepthOk mc) :
    DepthOk (run mc calls) := by
  induction calls generalizing mc with
  | nil => exact h
  | cons x rest ih =>
    obtain ⟨cur, call⟩ := x
    simp only [noRestore, List.all_cons, Bool.and_eq_true] at h4
    simp only [exitsByOwner, Bool.and_eq_true] at hex
    simp only [withinLong, Bool.and_eq_true] at hw
    simp only [run]
    apply ih _ (by simpa [noRestore] using h4.2) hex.2 hw.2
    cases call with
    | enter =>
      apply perform_enter_depthOk mc cur h
      intro ho
      have := hw.1
      simpa [mc_owner_p, ho] using this
    | try_enter =>
      apply perform_try_enter_depthOk mc cur h
      intro ho
      have := hw.1
      simpa [mc_owner_p, ho] using this
    | exit =>
      apply perform_exit_depthOk mc cur h
      have := hex.1
      simpa [mc_owner_p] using this
    | exit_for_cond => exact perform_exit_for_cond_depthOk mc cur h
    | enter_for_cond t n => simp at h4

theorem noRestore_of_onlyEnterExit (calls : List (Thread × Call))
    (h : onlyEnterExit calls = true) : noRestore calls = true := by
  simp only [onlyEnterExit, noRestore, List.all_eq_true] at *
  intro x hx
  have := h x hx
  simp only [Bool.or_eq_true] at this ⊢
  exact Or.inl this

theorem paired_fresh : Paired fresh := ⟨rfl, fun _ => rfl⟩

theorem depthOk_fresh : DepthOk fresh := Or.inl ⟨rfl, rfl⟩

theorem onlyEnterExit_enters (t : Thread) (n : Nat) : onlyEnterExit (enters t n) = true := by
  simp only [onlyEnterExit, enters, List.all_eq_true]
  intro x hx
  rw [List.eq_of_mem_replicate hx]
  rfl

theorem exitsByOwner_enters (t : Thread) (n : Nat) (mc : monitor_core) :
    exitsByOwner mc (enters t n) = true := by
  induction n generalizing mc with
  | zero => rfl
  | succ n ih =>
    rw [enters_succ]
    simp only [exitsByOwner, Bool.and_eq_true]
    exact ⟨rfl, ih _⟩


theorem I1_of_paired (mc : monitor_core) (h : Paired mc) : I1 mc := by
  obtain ⟨hh, _⟩ := h
  unfold I1 rb_mutex_locked_p
  rw [hh, Option.isSome_iff_ne_none]

theorem I2_of_depthOk (mc : monitor_core) (h : DepthOk mc) : I2 mc := by
  rcases h with ⟨hn, hc⟩ | ⟨t, ht, _, h1, _⟩
  · exact ⟨fun hne => absurd hn hne, fun _ => hc⟩
  · exact ⟨fun _ => h1, fun hn => by rw [ht] at hn; cases hn⟩

/-- C7 (amended): in every state reachable from a fresh lock by any interleaved
sequence of `enter()`, `try_enter()` and `exit()` calls by any threads in which every
`exit()` is issued by the current owner, I1 holds (owner is not none exactly when the
inner lock is locked) and depth is 0 whenever owner is none; I2 as a whole, with
depth at least 1 whenever owner is not none, holds when in addition no `enter()` or
`try_enter()` was issued by the owner at depth `LONG_MAX`. -/
theorem invariants_reachable (calls : List (Thread × Call))
    (h3 : onlyEnterExit calls = true) (hex : exitsByOwner fresh calls = true) :
    I1 (run fresh calls) ∧
    ((run fresh calls).owner = none → (run fresh calls).count = 0) ∧
    (withinLong fresh calls = true → I2 (run fresh calls)) := by
  have hp := run_paired calls fresh h3 hex paired_fresh
  refine ⟨I1_of_paired _ hp, hp.2, fun hw => ?_⟩
  exact I2_of_depthOk _
    (run_depthOk calls fresh (noRestore_of_onlyEnterExit calls h3) hex hw depthOk_fresh)

/-- Witness for C7 (amended): threads 1 and 2 interleaved. -/
theorem invariants_reachable_witness :
    I1 (run fresh [(1, Call.enter), (2, Call.try_enter), (1, Call.enter), (1, Call.exit)]) :=
  (invariants_reachable [(1, Call.enter), (2, Call.try_enter), (1, Call.enter), (1, Call.exit)]
    (by decide) (by decide)).1

/-- C7 as stated fails: `2 ^ 63` consecutive `enter()` calls by thread 0 on a fresh
lock, a sequence without any `exit()`, overflow the `long` depth: the lock is owned
by thread 0 at depth `LONG_MIN`, so I2 does not hold. -/
theorem depth_invariant_fails_after_overflow :
    onlyEnterExit (enters 0 9223372036854775808) = true ∧
    exitsByOwner fresh (enters 0 9223372036854775808) = true ∧
    run fresh (enters 0 9223372036854775808)
      = { count := LONG_MIN, owner := some 0, mutex := { holder := some 0 } } ∧
    ¬ I2 (run fresh (enters 0 9223372036854775808)) := by
  have hs : run fresh (enters 0 9223372036854775808)
      = { count := LONG_MIN, owner := some 0, mutex := { holder := some 0 } } := by
    have := run_fresh_enters 0 9223372036854775807
    rw [this]
    simp only [monitor_core.mk.injEq, and_true]
    decide
  refine ⟨onlyEnterExit_enters _ _, exitsByOwner_enters _ _ _, hs, ?_⟩
  rw [hs]
  intro h
  have := h.1 (by simp)
  revert this
  decide

/-- C8 (amended): `exit()` has no ownership check. For every state and every calling
thread `c` that is not the current owner, which `check_owner()` and `exit_for_cond()`
report by raising the ownership error with the record unchanged, `exit()` raises no
ownership error: it decrements depth in `long` arithmetic, so depth always changes;
it returns normally, with owner and inner lock unchanged, whenever the new depth is
not 0; at new depth 0 it clears the owner and then unlocks the inner lock: the lock
is released when `c` holds it, and otherwise the unlock raises with depth 0 and no
owner already written and the inner lock as it was. Depth and completion are those
the same call has when `c` is the owner. -/
theorem exit_unchecked (c : Thread) (mc : monitor_core) (hno : mc.owner ≠ some c) :
    (mcore_exit c mc).state.count = wrapLong (mc.count - 1) ∧
    (mcore_exit c mc).state.count ≠ mc.count ∧
    (mcore_exit c mc).exception? ≠ some .notOwner ∧
    (wrapLong (mc.count - 1) ≠ 0 →
      mcore_exit c mc = .returned () { mc with count := wrapLong (mc.count - 1) }) ∧
    (mcore_exit c mc).state.count = (mcore_exit c { mc with owner := some c }).state.count ∧
    (mcore_exit c mc).completed = (mcore_exit c { mc with owner := some c }).completed ∧
    mcore_check_owner c mc = .raised .notOwner mc ∧
    mcore_exit_for_cond c mc = .raised .notOwner mc ∧
    (wrapLong (mc.count - 1) = 0 → (mcore_exit c mc).state.owner = none) ∧
    (wrapLong (mc.count - 1) = 0 → mc.mutex.holder = some c →
      rb_mutex_unlock c mc.mutex = .ok { holder := none } ∧
      mcore_exit c mc
        = .returned () { count := 0, owner := none, mutex := { holder := none } }) ∧
    (wrapLong (mc.count - 1) = 0 → mc.mutex.holder ≠ some c →
      rb_mutex_unlock c mc.mutex = .error .mutexNotHeld ∧
      mcore_exit c mc
        = .raised .mutexNotHeld { count := 0, owner := none, mutex := mc.mutex }) ∧
    (wrapLong (mc.count - 1) ≠ 0 →
      (mcore_exit c mc).state.owner = mc.owner ∧ (mcore_exit c mc).state.mutex = mc.mutex) := by
  have hcount : (mcore_exit c mc).state.count = wrapLong (mc.count - 1) := by
    by_cases hz : wrapLong (mc.count - 1) = 0
    · by_cases hh : mc.mutex.holder = some c
      · rw [mcore_exit_of_holder c mc hz hh, hz]; rfl
      · rw [mcore_exit_of_not_holder c mc hz hh, hz]; rfl
    · rw [mcore_exit_of_ne_one c mc hz]; rfl
  have hb : (mc.owner == some c) = false := by simpa using hno
  refine ⟨hcount, ?_, ?_, mcore_exit_of_ne_one c mc, ?_, ?_, ?_, ?_, ?_, ?_, ?_, ?_⟩
  · rw [hcount]
    exact wrapLong_pred_ne _
  · by_cases hz : wrapLong (mc.count - 1) = 0
    · by_cases hh : mc.mutex.holder = some c
      · rw [mcore_exit_of_holder c mc hz hh]; simp [Result.exception?]
      · rw [mcore_exit_of_not_holder c mc hz hh]; simp [Result.exception?]
    · rw [mcore_exit_of_ne_one c mc hz]; simp [Result.exception?]
  · simp only [mcore_exit]
    split <;> rfl
  · simp only [mcore_exit]
    split <;> rfl
  · simp [mcore_check_owner, mc_owner_p, hb]
  · simp [mcore_exit_for_cond, mc_owner_p, hb]
  · intro hz
    by_cases hh : mc.mutex.holder = some c
    · rw [mcore_exit_of_holder c mc hz hh]; rfl
    · rw [mcore_exit_of_not_holder c mc hz hh]; rfl
  · intro hz hh
    exact ⟨by simp [rb_mutex_unlock, hh], mcore_exit_of_holder c mc hz hh⟩
  · intro hz hh
    exact ⟨by simp [rb_mutex_unlock, hh], mcore_exit_of_not_holder c mc hz hh⟩
  · intro hz
    rw [mcore_exit_of_ne_one c mc hz]
    exact ⟨rfl, rfl⟩

/-- Witness for C8 (amended): thread 2 exits a lock owned by thread 1: at depth 2
the depth changes; at depth 1 the owner is cleared, and the inner lock is released
when thread 2 holds it and kept, with the unlock raising, when thread 1 holds it. -/
theorem exit_unchecked_witness :
    (mcore_exit 2 { count := 2, owner := some 1, mutex := { holder := some 1 } }).state.count
      ≠ 2 ∧
    mcore_exit 2 { count := 1, owner := some 1, mutex := { holder := some 2 } }
      = .returned () { count := 0, owner := none, mutex := { holder := none } } ∧
    mcore_exit 2 { count := 1, owner := some 1, mutex := { holder := some 1 } }
      = .raised .mutexNotHeld { count := 0, owner := none, mutex := { holder := some 1 } } ∧
    mcore_exit_for_cond 2 { count := 1, owner := some 1, mutex := { holder := some 1 } }
      = .raised .notOwner { count := 1, owner := some 1, mutex := { holder := some 1 } } :=
  ⟨(exit_unchecked 2 { count := 2, owner := some 1, mutex := { holder := some 1 } }
      (by decide)).2.1,
   ((exit_unchecked 2 { count := 1, owner := some 1, mutex := { holder := some 2 } }
      (by decide)).2.2.2.2.2.2.2.2.2.1 (by decide) rfl).2,
   ((exit_unchecked 2 { count := 1, owner := some 1, mutex := { holder := some 1 } }
      (by decide)).2.2.2.2.2.2.2.2.2.2.1 (by decide) (by decide)).2,
   (exit_unchecked 2 { count := 1, owner := some 1, mutex := { holder := some 1 } }
      (by decide)).2.2.2.2.2.2.2.1⟩

/-- C8 as stated fails: `exit()` by thread 2 on a lock owned by thread 1 at depth 2
returns normally with depth 1, and `exit()` on a fresh lock (owner none) returns
normally with depth -1. -/
theorem exit_by_non_owner_succeeds :
    mcore_exit 2 { count := 2, owner := some 1, mutex := { holder := some 1 } }
      = .returned () { count := 1, owner := some 1, mutex := { holder := some 1 } } ∧
    mcore_exit 2 fresh = .returned () { count := -1, owner := none, mutex := { holder := none } } := by
  decide

/-- C9 (amended): in every state reachable from a fresh lock by any sequence of
`enter()`, `try_enter()`, `exit()` and `exit_for_cond()` calls by any threads in
which every `exit()` is issued by the current owner and no `enter()` or
`try_enter()` is issued by the owner at depth `LONG_MAX`, depth is at least 0. -/
theorem depth_nonneg_reachable (calls : List (Thread × Call))
    (h4 : noRestore calls = true) (hex : exitsByOwner fresh calls = true)
    (hw : withinLong fresh calls = true) :
    0 ≤ (run fresh calls).count := by
  rcases run_depthOk calls fresh h4 hex hw depthOk_fresh with ⟨_, hc⟩ | ⟨t, _, _, h1, _⟩
  · rw [hc]
  · omega

/-- Witness for C9 (amended): a sequence with a save by the owner and a refused one. -/
theorem depth_nonneg_reachable_witness :
    0 ≤ (run fresh [(1, Call.enter), (1, Call.enter), (1, Call.exit_for_cond),
      (2, Call.try_enter), (2, Call.exit_for_cond)]).count :=
  depth_nonneg_reachable [(1, Call.enter), (1, Call.enter), (1, Call.exit_for_cond),
      (2, Call.try_enter), (2, Call.exit_for_cond)] (by decide) (by decide) (by decide)

/-- C9 as stated fails: one `exit()` on a fresh lock leaves depth -1. -/
theorem depth_negative_after_unpaired_exit :
    noRestore [(0, Call.exit)] = true ∧
    run fresh [(0, Call.exit)] = { count := -1, owner := none, mutex := { holder := none } } ∧
    ¬ (0 ≤ (run fresh [(0, Call.exit)]).count) := by
  decide

/-- C10 (amended): a fresh lock maps to `Unheld`, and for every concrete state that
maps to a conceptual state `a`, every call by thread `cur` for which the
specification lists a transition from `a` to `a'` (enter/try_enter by `cur`, exit
and exit_for_cond by the owner, enter_for_cond(t, n) with `n ≥ 1`) takes the concrete
state to one whose bookkeeping (owner, depth) is that of `a'`, provided the depth of
`a'` fits in a `long`. -/
theorem refines_spec_machine :
    abstraction fresh = some .Unheld ∧
    ∀ (mc : monitor_core) (cur : Thread) (call : Call) (a a' : AbsState),
      abstraction mc = some a → spec_step cur call a = some a' → a'.fitsLong →
      bookkeeping (perform mc cur call) = a'.bookkeeping := by
  refine ⟨by decide, ?_⟩
  intro mc cur call a a' ha hs hfit
  obtain ⟨cnt, own, ⟨hol⟩⟩ := mc
  cases own with
  | none =>
    simp only [abstraction] at ha
    split_ifs at ha with hc
    obtain ⟨hc0, hh⟩ := hc
    subst hc0 hh
    cases ha
    cases call with
    | enter =>
      simp only [spec_step, Option.some.injEq] at hs
      subst hs
      simp [perform, mcore_enter, mc_owner_p, rb_mutex_lock, Result.state, bookkeeping,
        AbsState.bookkeeping, wrapLong_one]
    | try_enter =>
      simp only [spec_step, Option.some.injEq] at hs
      subst hs
      simp [perform, mcore_try_enter, mc_owner_p, rb_mutex_trylock, Result.state, bookkeeping,
        AbsState.bookkeeping, wrapLong_one]
    | exit => simp [spec_step] at hs
    | exit_for_cond => simp [spec_step] at hs
    | enter_for_cond t n =>
      cases t with
      | none => simp [spec_step] at hs
      | some t =>
        simp only [spec_step] at hs
        split_ifs at hs with hn
        cases hs
        simp only [AbsState.fitsLong] at hfit
        have hnum : NUM2LONG n = .ok n := by
          unfold NUM2LONG
          rw [if_pos]
          unfold LONG_MIN LONG_MAX at *
          omega
        simp only [perform, mcore_enter_for_cond, hnum, Result.state, bookkeeping,
          AbsState.bookkeeping, Prod.mk.injEq, true_and]
        omega
  | some t =>
    simp only [abstraction] at ha
    split_ifs at ha with hc
    obtain ⟨hc1, hh⟩ := hc
    subst hh
    cases ha
    cases call with
    | enter =>
      simp only [spec_step] at hs
      split_ifs at hs with htc
      subst htc
      cases hs
      simp only [AbsState.fitsLong] at hfit
      have hw : wrapLong (cnt + 1) = cnt + 1 := by
        apply wrapLong_of_isLong
        unfold isLong LONG_MIN LONG_MAX at *
        omega
      rw [perform, mcore_enter_of_owner t _ rfl]
      simp only [Result.state, bookkeeping, AbsState.bookkeeping, Prod.mk.injEq, true_and, hw]
      omega
    | try_enter =>
      simp only [spec_step] at hs
      split_ifs at hs with htc
      subst htc
      cases hs
      simp only [AbsState.fitsLong] at hfit
      have hw : wrapLong (cnt + 1) = cnt + 1 := by
        apply wrapLong_of_isLong
        unfold isLong LONG_MIN LONG_MAX at *
        omega
      rw [perform, mcore_try_enter_of_owner t _ rfl]
      simp only [Result.state, bookkeeping, AbsState.bookkeeping, Prod.mk.injEq, true_and, hw]
      omega
    | exit =>
      simp only [spec_step] at hs
      split_ifs at hs with htc h1 h2
      · subst htc
        cases hs
        simp only [AbsState.fitsLong] at hfit
        have hw : wrapLong (cnt - 1) = cnt - 1 := by
          apply wrapLong_of_isLong
          unfold isLong LONG_MIN LONG_MAX at *
          omega
        rw [perform, mcore_exit_of_ne_one]
        · simp only [Result.state, bookkeeping, AbsState.bookkeeping, Prod.mk.injEq, true_and, hw]
          omega
        · simp only [hw]
          omega
      · subst htc
        cases hs
        have hc : cnt = 1 := by omega
        subst hc
        rw [perform, mcore_exit_of_holder t _ (by simp [wrapLong_zero]) rfl]
        rfl
    | exit_for_cond =>
      simp only [spec_step] at hs
      split_ifs at hs with htc
      subst htc
      cases hs
      simp [perform, mcore_exit_for_cond, mc_owner_p, Result.state, bookkeeping,
        AbsState.bookkeeping]
    | enter_for_cond t' n =>
      cases t' with
      | none => simp [spec_step] at hs
      | some t' =>
        simp only [spec_step] at hs
        split_ifs at hs with hn
        cases hs
        simp only [AbsState.fitsLong] at hfit
        have hnum : NUM2LONG n = .ok n := by
          unfold NUM2LONG
          rw [if_pos]
          unfold LONG_MIN LONG_MAX at *
          omega
        simp only [perform, mcore_enter_for_cond, hnum, Result.state, bookkeeping,
          AbsState.bookkeeping, Prod.mk.injEq, true_and]
        omega

/-- Witness for C10 (amended): the transition `Held(1,2) → Held(1,1)` by `exit()`. -/
theorem refines_spec_machine_witness :
    bookkeeping (perform { count := 2, owner := some 1, mutex := { holder := some 1 } }
        1 Call.exit) = (AbsState.Held 1 1).bookkeeping :=
  refines_spec_machine.2 { count := 2, owner := some 1, mutex := { holder := some 1 } }
    1 Call.exit (.Held 1 2) (.Held 1 1) (by decide) (by decide)
    (by simp only [AbsState.fitsLong]; decide)

/-- C10 as stated fails: the state owned by thread 1 at depth `LONG_MAX` maps to
`Held(1, LONG_MAX)`, the specification's transition for `enter()` by thread 1 leads
to `Held(1, LONG_MAX + 1)`, and the code leaves depth `LONG_MIN`. -/
theorem refinement_fails_at_long_max :
    abstraction { count := LONG_MAX, owner := some 1, mutex := { holder := some 1 } }
      = some (.Held 1 9223372036854775807) ∧
    spec_step 1 Call.enter (.Held 1 9223372036854775807)
      = some (.Held 1 9223372036854775808) ∧
    bookkeeping (perform { count := LONG_MAX, owner := some 1, mutex := { holder := some 1 } }
        1 Call.enter) = (some 1, LONG_MIN) ∧
    bookkeeping (perform { count := LONG_MAX, owner := some 1, mutex := { holder := some 1 } }
        1 Call.enter) ≠ (AbsState.Held 1 9223372036854775808).bookkeeping := by
  decide

/-! ## The restore call, the queries and the constructor -/

theorem NUM2LONG_of_isLong (n : Int) (h : isLong n) : NUM2LONG n = .ok n := by
  unfold isLong at h
  unfold NUM2LONG
  rw [if_pos h]

theorem NUM2LONG_of_not_isLong (n : Int) (h : ¬ isLong n) : NUM2LONG n = .error .rangeError := by
  unfold isLong at h
  unfold NUM2LONG
  rw [if_neg h]

/-- C11 (amended): `enter_for_cond(thread, count)` is an unconditional override for
every count that fits a `long`: for every prior state, every caller, every thread
value and every such count it returns with owner = thread, depth = count and the
inner lock as it was. For every count the inner lock is left as it was, and the call
fails exactly when count does not fit a `long` (the conversion raises a range
error), whatever the prior state and the caller. -/
theorem enter_for_cond_override (c : Thread) (mc : monitor_core)
    (thread : Option Thread) (count : Int) :
    (isLong count →
      mcore_enter_for_cond c mc thread count
        = .returned () { count := count, owner := thread, mutex := mc.mutex }) ∧
    (mcore_enter_for_cond c mc thread count).state.mutex = mc.mutex ∧
    ((mcore_enter_for_cond c mc thread count).completed = true ↔ isLong count) ∧
    ((mcore_enter_for_cond c mc thread count).exception? = some .rangeError ↔ ¬ isLong count) ∧
    (∀ (c' : Thread) (mc' : monitor_core),
      (mcore_enter_for_cond c' mc' thread count).exception?
        = (mcore_enter_for_cond c mc thread count).exception?) := by
  by_cases h : isLong count
  · simp [mcore_enter_for_cond, NUM2LONG_of_isLong count h, h, Result.state, Result.completed,
      Result.exception?]
  · simp [mcore_enter_for_cond, NUM2LONG_of_not_isLong count h, h, Result.state,
      Result.completed, Result.exception?]

/-- C11 as stated fails: `enter_for_cond(1, 2 ^ 63)` on a fresh lock raises the range
error of the integer conversion, and depth is not the count that was passed. -/
theorem enter_for_cond_rejects_wide_count :
    mcore_enter_for_cond 0 fresh (some 1) 9223372036854775808
      = .raised .rangeError { count := 0, owner := some 1, mutex := { holder := none } } ∧
    (mcore_enter_for_cond 0 fresh (some 1) 9223372036854775808).state.count
      ≠ 9223372036854775808 := by
  decide

/-- C12: for every state and caller, `locked?()`, `owned?()`, `owner()` and
`mutex_for_cond()` return without failing and leave the record (owner, depth, inner
lock) unchanged; `locked?()` is true exactly when the inner lock is locked,
`owned?()` is true exactly when the inner lock is locked and the caller equals
owner, `owner()` returns the owner field and `mutex_for_cond()` the inner lock; on a
fresh lock `locked?()` and `owned?()` are false and `owner()` is none. -/
theorem queries_pure (c : Thread) (mc : monitor_core) :
    ((mcore_locked_p c mc).state = mc ∧ (mcore_locked_p c mc).completed = true ∧
      ((mcore_locked_p c mc).value? = some true ↔ mc.mutex.holder ≠ none) ∧
      ((mcore_locked_p c mc).value? = some false ↔ mc.mutex.holder = none)) ∧
    ((mcore_owned_p c mc).state = mc ∧ (mcore_owned_p c mc).completed = true ∧
      ((mcore_owned_p c mc).value? = some true ↔
        (mc.mutex.holder ≠ none ∧ mc.owner = some c)) ∧
      ((mcore_owned_p c mc).value? = some false ↔
        ¬ (mc.mutex.holder ≠ none ∧ mc.owner = some c))) ∧
    (mcore_owner c mc = .returned mc.owner mc) ∧
    (mcore_mutex_for_cond c mc = .returned mc.mutex mc) ∧
    (mcore_locked_p c fresh = .returned false fresh ∧
      mcore_owned_p c fresh = .returned false fresh ∧
      mcore_owner c fresh = .returned none fresh) := by
  refine ⟨⟨rfl, rfl, ?_, ?_⟩, ⟨rfl, rfl, ?_, ?_⟩, rfl, rfl, rfl, ?_, rfl⟩
  · simp [mcore_locked_p, Result.value?, rb_mutex_locked_p, Option.isSome_iff_ne_none]
  · simp [mcore_locked_p, Result.value?, rb_mutex_locked_p]
  · simp [mcore_owned_p, Result.value?, rb_mutex_locked_p, mc_owner_p,
      Option.isSome_iff_ne_none]
  · simp [mcore_owned_p, Result.value?, rb_mutex_locked_p, mc_owner_p,
      Option.isSome_iff_ne_none]
  · simp [mcore_owned_p, fresh, rb_mutex_new, rb_mutex_locked_p, mc_owner_p]

/-- C13 (amended): with zero arguments the constructor yields a lock with a fresh
unlocked inner lock, owner none and depth 0; with exactly three arguments
(inner_lock, owner, depth) whose depth fits a `long` it yields a lock holding
exactly those three values, with no invariant check; with three arguments whose
depth does not fit a `long` the integer conversion raises a range error; with any
other number of arguments it raises ArgumentError. -/
theorem construction (argc : Nat) (argv : InitArgv) :
    (argc = 0 → mcore_init argc argv
      = .ok { count := 0, owner := none, mutex := { holder := none } }) ∧
    (argc = 3 → isLong argv.count → mcore_init argc argv
      = .ok { count := argv.count, owner := argv.owner, mutex := argv.mutex }) ∧
    (argc = 3 → ¬ isLong argv.count → mcore_init argc argv = .error .rangeError) ∧
    (argc ≠ 0 → argc ≠ 3 → mcore_init argc argv = .error (.argError argc)) := by
  refine ⟨?_, ?_, ?_, ?_⟩
  · intro h0
    simp [mcore_init, h0, rb_mutex_new]
  · intro h3 hl
    simp [mcore_init, h3, NUM2LONG_of_isLong _ hl]
  · intro h3 hl
    simp [mcore_init, h3, NUM2LONG_of_not_isLong _ hl]
  · intro h0 h3
    simp [mcore_init, h0, h3]

/-- Witness for C13 (amended): three values that break I1 and I2 are stored as given. -/
theorem construction_witness :
    mcore_init 3 { mutex := { holder := some 5 }, owner := none, count := -4 }
      = .ok { count := -4, owner := none, mutex := { holder := some 5 } } :=
  (construction 3 { mutex := { holder := some 5 }, owner := none, count := -4 }).2.1 rfl
    (by decide)

/-- C13 as stated fails: with the three arguments (free inner lock, none, `2 ^ 63`)
the constructor yields no lock; the conversion of the depth raises a range error. -/
theorem construction_rejects_wide_count :
    mcore_init 3 { mutex := { holder := none }, owner := none, count := 9223372036854775808 }
      = .error .rangeError := by
  rfl

/-- C14: for every state and calling thread `c`, `try_enter()` always returns; it
returns true if and only if `c` equals owner or the inner lock is free (and false
otherwise), and in that case `enter()` by `c` completes from the same state and the
record (owner, depth, inner lock) `try_enter()` leaves is the one `enter()` leaves. -/
theorem try_enter_agrees_with_enter (c : Thread) (mc : monitor_core) :
    (mcore_try_enter c mc).completed = true ∧
    ((mcore_try_enter c mc).value? = some true ↔
      (mc.owner = some c ∨ mc.mutex.holder = none)) ∧
    ((mcore_try_enter c mc).value? = some false ↔
      ¬ (mc.owner = some c ∨ mc.mutex.holder = none)) ∧
    ((mc.owner = some c ∨ mc.mutex.holder = none) →
      (mcore_enter c mc).completed = true ∧
      (mcore_try_enter c mc).state = (mcore_enter c mc).state) := by
  by_cases ho : mc.owner = some c
  · rw [mcore_try_enter_of_owner c mc ho, mcore_enter_of_owner c mc ho]
    simp [Result.completed, Result.value?, Result.state, ho]
  · by_cases hm : mc.mutex.holder = none
    · rw [mcore_try_enter_of_free c mc ho hm, mcore_enter_of_free c mc ho hm]
      simp [Result.completed, Result.value?, Result.state, hm]
    · rw [mcore_try_enter_of_held c mc ho hm]
      simp [Result.completed, Result.value?, ho, hm]

/-- C15: in every state reachable from a fresh lock by `enter()`, `try_enter()` and
owner-issued `exit()` calls, the inner lock is held by `t` if and only if owner is
`t`; so for the owner the unlock of the inner lock succeeds, an `exit()` issued by
the owner raises nothing, and at depth 1 it returns leaving a fresh lock. -/
theorem holder_is_owner_reachable (calls : List (Thread × Call))
    (h3 : onlyEnterExit calls = true) (hex : exitsByOwner fresh calls = true) :
    (∀ t, (run fresh calls).mutex.holder = some t ↔ (run fresh calls).owner = some t) ∧
    (∀ c, (run fresh calls).owner = some c →
      rb_mutex_unlock c (run fresh calls).mutex = .ok { holder := none }) ∧
    (∀ c, (run fresh calls).owner = some c →
      (mcore_exit c (run fresh calls)).exception? = none) ∧
    (∀ c, (run fresh calls).owner = some c → (run fresh calls).count = 1 →
      mcore_exit c (run fresh calls) = .returned () fresh) := by
  have hp := (run_paired calls fresh h3 hex paired_fresh).1
  refine ⟨fun t => by rw [hp], ?_, ?_, ?_⟩
  · intro c hc
    simp [rb_mutex_unlock, hp, hc]
  · intro c hc
    by_cases hz : wrapLong ((run fresh calls).count - 1) = 0
    · rw [mcore_exit_of_holder c _ hz (by rw [hp, hc])]
      rfl
    · rw [mcore_exit_of_ne_one c _ hz]
      rfl
  · intro c hc h1
    rw [mcore_exit_of_holder c _ (by rw [h1]; exact wrapLong_zero) (by rw [hp, hc])]
    rfl

/-- Witness for C15: thread 2 is kept out while thread 1 enters twice and exits twice. -/
theorem holder_is_owner_reachable_witness :
    mcore_exit 1 (run fresh [(1, Call.enter), (2, Call.enter), (1, Call.try_enter),
      (1, Call.exit)]) = .returned () fresh :=
  (holder_is_owner_reachable [(1, Call.enter), (2, Call.enter), (1, Call.try_enter),
      (1, Call.exit)] (by decide) (by decide)).2.2.2 1 (by decide) (by decide)

/-- With no owner and the inner lock held, `try_enter()` calls change nothing. -/
theorem run_onlyTryEnter_of_stuck (calls : List (Thread × Call)) (mc : monitor_core)
    (h : onlyTryEnter calls = true) (ho : mc.owner = none) (hm : mc.mutex.holder ≠ none) :
    run mc calls = mc := by
  induction calls with
  | nil => rfl
  | cons x rest ih =>
    obtain ⟨cur, call⟩ := x
    simp only [onlyTryEnter, List.all_cons, Bool.and_eq_true, beq_iff_eq] at h
    obtain ⟨hcall, hrest⟩ := h
    subst hcall
    simp only [run, perform]
    rw [mcore_try_enter_of_held cur mc (by rw [ho]; simp) hm]
    exact ih (by simpa [onlyTryEnter] using hrest)

/-- C16: in the state a successful `exit_for_cond()` leaves when the inner lock is
locked (owner none, depth 0, inner lock still locked), `try_enter()` by every
thread, the saving thread included, returns false and changes nothing, and so does
any sequence of `try_enter()` calls; once the inner lock is unlocked, `try_enter()`
succeeds. -/
theorem no_entry_after_save (t : Thread) (mc : monitor_core)
    (ho : mc.owner = some t) (hl : rb_mutex_locked_p mc.mutex = true) :
    (mcore_exit_for_cond t mc).completed = true ∧
    (mcore_exit_for_cond t mc).state = { count := 0, owner := none, mutex := mc.mutex } ∧
    (∀ c, mcore_try_enter c (mcore_exit_for_cond t mc).state
      = .returned false (mcore_exit_for_cond t mc).state) ∧
    (∀ calls, onlyTryEnter calls = true →
      run (mcore_exit_for_cond t mc).state calls = (mcore_exit_for_cond t mc).state) ∧
    (∀ c, mcore_try_enter c { (mcore_exit_for_cond t mc).state with mutex := { holder := none } }
      = .returned true { count := 1, owner := some c, mutex := { holder := some c } }) := by
  have hs : mcore_exit_for_cond t mc
      = .returned mc.count { count := 0, owner := none, mutex := mc.mutex } := by
    simp [mcore_exit_for_cond, mc_owner_p, ho, LONG2NUM]
  have hm : mc.mutex.holder ≠ none := by
    simpa [rb_mutex_locked_p, Option.isSome_iff_ne_none] using hl
  rw [hs]
  refine ⟨rfl, rfl, ?_, ?_, ?_⟩
  · intro c
    exact mcore_try_enter_of_held c _ (by simp [Result.state]) hm
  · intro calls hc
    exact run_onlyTryEnter_of_stuck calls _ hc rfl hm
  · intro c
    exact mcore_try_enter_of_free c _ (by simp [Result.state]) rfl

/-- Witness for C16: thread 1 saves at depth 2 and tries to enter again. -/
theorem no_entry_after_save_witness :
    mcore_try_enter 1
        (mcore_exit_for_cond 1
          { count := 2, owner := some 1, mutex := { holder := some 1 } }).state
      = .returned false
        (mcore_exit_for_cond 1
          { count := 2, owner := some 1, mutex := { holder := some 1 } }).state :=
  (no_entry_after_save 1 { count := 2, owner := some 1, mutex := { holder := some 1 } }
    rfl rfl).2.2.1 1

end ExtMonitor
